import Mathlib

/-!
Verification of the ImageAnotator geometry / annotation-store core.

This file gives a shallow embedding, over exact rational arithmetic, of the
functions of `js/model.js` (AnnotationModel and AnnotationViewModel) and of
the geometry utilities (`canvas-renderer.js`: getHandles,
isPointInBox, isPointInPolygon), together with theorems about them.

Conventions of the embedding:
* all numeric quantities are rationals (ℚ); the JavaScript code performs the
  same field operations on IEEE doubles;
* a rotation angle is represented by the pair of its cosine and sine
  (`angleC`, `angleS`), since the source only ever consumes
  `Math.cos(angle)` / `Math.sin(angle)`; where a fact needs the pair to be a
  genuine rotation we add the hypothesis `angleC ^ 2 + angleS ^ 2 = 1`;
* JavaScript array `push` / `pop` act on the end of the array; the history
  and redo stacks are embedded as Lean lists whose *head* is the stack top;
* deep copies (`JSON.parse(JSON.stringify(...))`) are the identity on the
  purely functional values used here.
-/

namespace ImageAnotator

/-- A 2-D point in world coordinates (source objects of shape `{x, y}`). -/
structure Pt where
  x : ℚ
  y : ℚ
deriving DecidableEq

/-- An axis-aligned bounding box `{x, y, w, h}` (top-left based). -/
structure BBox where
  x : ℚ
  y : ℚ
  w : ℚ
  h : ℚ
deriving DecidableEq

/-- The shape kind tag (source field `type`, string rect or poly). -/
inductive BoxType where
  | rect
  | poly
deriving DecidableEq

/-- An annotation shape as created by `addBox` / `addPolygon` in
`js/model.js`.  The stored rotation angle is embedded by its cosine/sine
pair (see file header).  Rectangles carry an empty `points` list. -/
structure Box where
  id : ℕ
  type : BoxType
  x : ℚ
  y : ℚ
  w : ℚ
  h : ℚ
  angleC : ℚ
  angleS : ℚ
  text : String
  points : List Pt
deriving DecidableEq

/-- js/model.js `calculateBoundingBox` (lines 174-182): axis-aligned min/max
over the point list.  For an empty list the source would spread into
`Math.min()` / `Math.max()` and produce non-finite values; no caller passes
an empty list, and we return the zero box in that unreachable case. -/
def calculateBoundingBox : List Pt → BBox
  | [] => ⟨0, 0, 0, 0⟩
  | p :: ps =>
    let minX := ps.foldl (fun m q => min m q.x) p.x
    let minY := ps.foldl (fun m q => min m q.y) p.y
    let maxX := ps.foldl (fun m q => max m q.x) p.x
    let maxY := ps.foldl (fun m q => max m q.y) p.y
    ⟨minX, minY, maxX - minX, maxY - minY⟩

/-- js/model.js constant `MIN_SCALE = 0.2`. -/
def MIN_SCALE : ℚ := 1 / 5

/-- js/model.js constant `MAX_SCALE = 5.0`. -/
def MAX_SCALE : ℚ := 5

/-- The part of the `AnnotationModel` state the verified operations touch:
shape list, id allocator, history and redo stacks (head = stack top), and
the view transform. -/
structure ModelState where
  boxes : List Box
  nextId : ℕ
  history : List (List Box)
  redoStack : List (List Box)
  scale : ℚ
  panX : ℚ
  panY : ℚ
deriving DecidableEq

/-- The id allocator recomputation of the `currentAnnotations` setter
(js/model.js lines 54-59): `newBoxes.length ? Math.max(...ids, 0) + 1 : 0`. -/
def setNextId (newBoxes : List Box) : ℕ :=
  if newBoxes = [] then 0
  else (newBoxes.foldl (fun m b => max m b.id) 0) + 1

/-- The `currentAnnotations` setter (js/model.js lines 54-59): bulk-replaces
the shape list and recomputes the id allocator. -/
def setCurrentAnnotations (st : ModelState) (newBoxes : List Box) : ModelState :=
  { st with boxes := newBoxes, nextId := setNextId newBoxes }

/-- js/model.js `addBox` (lines 66-77): allocates the next id, appends a new
rectangle with angle 0 (cosine 1, sine 0) and the label sentinel. -/
def addBox (st : ModelState) (bb : BBox) : ModelState × Box :=
  let newBox : Box :=
    { id := st.nextId, type := .rect, x := bb.x, y := bb.y, w := bb.w, h := bb.h,
      angleC := 1, angleS := 0, text := "Not defined", points := [] }
  ({ st with boxes := st.boxes ++ [newBox], nextId := st.nextId + 1 }, newBox)

/-- js/model.js `addPolygon` (lines 106-119): computes the bounding box from
the points, allocates the next id, appends. -/
def addPolygon (st : ModelState) (points : List Pt) : ModelState × Box :=
  let bb := calculateBoundingBox points
  let newPoly : Box :=
    { id := st.nextId, type := .poly, x := bb.x, y := bb.y, w := bb.w, h := bb.h,
      angleC := 1, angleS := 0, text := "Not defined", points := points }
  ({ st with boxes := st.boxes ++ [newPoly], nextId := st.nextId + 1 }, newPoly)

/-- js/model.js `copyBox` (lines 84-99): finds the box by id (`null` when
absent), deep-copies it, gives it the next id, offsets `x`/`y` by +10, and
for polygons offsets every point by (+10, +10). -/
def copyBox (st : ModelState) (idToCopy : ℕ) : ModelState × Option Box :=
  match st.boxes.find? (fun b => b.id = idToCopy) with
  | none => (st, none)
  | some boxToCopy =>
    let nb0 : Box := { boxToCopy with id := st.nextId, x := boxToCopy.x + 10, y := boxToCopy.y + 10 }
    let newBox : Box :=
      if nb0.type = BoxType.poly then
        { nb0 with points := nb0.points.map (fun p => ⟨p.x + 10, p.y + 10⟩) }
      else nb0
    ({ st with boxes := st.boxes ++ [newBox], nextId := st.nextId + 1 }, some newBox)

/-- js/model.js `deleteBox` (lines 125-127): removes by id, no-op if absent. -/
def deleteBox (st : ModelState) (idToDelete : ℕ) : ModelState :=
  { st with boxes := st.boxes.filter (fun b => b.id ≠ idToDelete) }

/-- js/model.js `saveState` (lines 134-138): pushes a deep copy of the shape
list onto the history stack and clears the redo stack.  The
`isUndoRedoAction` reentrancy guard is set only around the restoring
assignments inside `undo` / `redo`, which never call `saveState` while it is
set, so the embedded `saveState` is the unguarded path. -/
def saveState (st : ModelState) : ModelState :=
  { st with history := st.boxes :: st.history, redoStack := [] }

/-- js/model.js `undo` (lines 144-151): returns false if only the initial
snapshot remains; otherwise pops the top of history onto the redo stack and
restores the new top through the `currentAnnotations` setter. -/
def undo (st : ModelState) : ModelState × Bool :=
  match st.history with
  | top :: newTop :: rest =>
    (setCurrentAnnotations
      { st with history := newTop :: rest, redoStack := top :: st.redoStack } newTop,
     true)
  | _ => (st, false)

/-- js/model.js `redo` (lines 157-165): returns false on an empty redo
stack; otherwise pops the redo stack, pushes that snapshot back onto the
history and restores it through the `currentAnnotations` setter. -/
def redo (st : ModelState) : ModelState × Bool :=
  match st.redoStack with
  | [] => (st, false)
  | nextState :: rest =>
    (setCurrentAnnotations
      { st with redoStack := rest, history := nextState :: st.history } nextState,
     true)

/-- js/model.js `resetAppState` (lines 196-208): clears everything, resets
the view transform to `{1, 0, 0}` and saves the new empty state. -/
def resetAppState : ModelState :=
  saveState { boxes := [], nextId := 0, history := [], redoStack := [],
              scale := 1, panX := 0, panY := 0 }

/-- The state built by the `AnnotationModel` constructor (lines 15-40):
empty store with the initial empty snapshot already in the history. -/
def initState : ModelState := resetAppState

/-- js/model.js `zoomCanvas` (lines 1551-1569), view-transform part: clamp
the new scale into `[MIN_SCALE, MAX_SCALE]`; if it did not change, do
nothing; otherwise adjust the pan so the zoom center stays fixed and assign
the new scale.  (The source also early-returns when no image is loaded and
triggers a redraw; neither touches the embedded state.) -/
def zoomCanvas (st : ModelState) (factor centerX centerY : ℚ) : ModelState :=
  let oldScale := st.scale
  let newScale := max MIN_SCALE (min MAX_SCALE (oldScale * factor))
  if newScale = oldScale then st
  else
    let scaleRatio := newScale / oldScale
    { st with
      panX := centerX - (centerX - st.panX) * scaleRatio,
      panY := centerY - (centerY - st.panY) * scaleRatio,
      scale := newScale }

/-- js/model.js `handleFitToScreen` (lines 981-992): sets the scale to
`min(canvasWidth / naturalWidth, canvasHeight / naturalHeight)` — with no
clamping — and centers the image. -/
def handleFitToScreen (st : ModelState)
    (naturalWidth naturalHeight width height : ℚ) : ModelState :=
  let scaleX := width / naturalWidth
  let scaleY := height / naturalHeight
  let s := min scaleX scaleY
  { st with scale := s,
            panX := (width - naturalWidth * s) / 2,
            panY := (height - naturalHeight * s) / 2 }

/-! ### Geometry kernel (canvas-renderer.js) -/

/-- canvas-renderer.js constant `ROTATION_HANDLE_OFFSET = 20`. -/
def ROTATION_HANDLE_OFFSET : ℚ := 20

/-- The nine handle names of `getHandles` (canvas-renderer.js lines
417-443): four corners, four edge midpoints and the rotation grip. -/
inductive HandleName where
  | nw | ne | sw | se | n | s | w | e | rotation
deriving DecidableEq

/-- canvas-renderer.js `getHandles` (lines 417-443): handle position in
local (pre-rotation) coordinates relative to the box center. -/
def handleCorner (box : Box) (scale : ℚ) : HandleName → Pt
  | .nw => ⟨-(box.w / 2), -(box.h / 2)⟩
  | .ne => ⟨box.w / 2, -(box.h / 2)⟩
  | .sw => ⟨-(box.w / 2), box.h / 2⟩
  | .se => ⟨box.w / 2, box.h / 2⟩
  | .n => ⟨0, -(box.h / 2)⟩
  | .s => ⟨0, box.h / 2⟩
  | .w => ⟨-(box.w / 2), 0⟩
  | .e => ⟨box.w / 2, 0⟩
  | .rotation => ⟨0, -(box.h / 2) - ROTATION_HANDLE_OFFSET / scale⟩

/-- canvas-renderer.js `getHandles` (lines 417-443): each local handle
position rotated by the box angle about the bounding-box center and
translated to world coordinates. -/
def getHandles (box : Box) (scale : ℚ) (key : HandleName) : Pt :=
  let centerX := box.x + box.w / 2
  let centerY := box.y + box.h / 2
  let corner := handleCorner box scale key
  ⟨centerX + corner.x * box.angleC - corner.y * box.angleS,
   centerY + corner.x * box.angleS + corner.y * box.angleC⟩

/-- One loop iteration of `isPointInPolygon` (canvas-renderer.js lines
461-476): the horizontal ray from `(px, py)` crosses the edge from
`points[j]` to `points[i]` when the endpoints straddle `py` and the x-intercept of the edge at `py` exceeds `px`.  In the source the division is only
evaluated when the short-circuited straddle test holds, which forces
`yj ≠ yi`; rational division by zero is harmless here for the same reason. -/
def edgeCrosses (px py : ℚ) (pi pj : Pt) : Bool :=
  (decide (pi.y > py) != decide (pj.y > py)) &&
    decide (px < (pj.x - pi.x) * (py - pi.y) / (pj.y - pi.y) + pi.x)

/-- canvas-renderer.js `isPointInPolygon` (lines 461-476): even-odd
ray-casting over the edges `(points[j], points[i])` with
`j = i = 0 ? length - 1 : i - 1`. -/
def isPointInPolygon (px py : ℚ) (points : List Pt) : Bool :=
  (List.range points.length).foldl
    (fun isInside i =>
      let j := if i = 0 then points.length - 1 else i - 1
      if edgeCrosses px py (points.getD i ⟨0, 0⟩) (points.getD j ⟨0, 0⟩) then
        !isInside
      else isInside)
    false

/-- canvas-renderer.js `isPointInBox` (lines 445-458): polygons dispatch to
the ray-casting test; rectangles inverse-rotate the query point by the
negated box angle about the bounding-box center (so with the stored pair
`(angleC, angleS)` the rotation matrix entries are `cos(-a) = angleC` and
`sin(-a) = -angleS`) and test strict inequality against the half-extents. -/
def isPointInBox (px py : ℚ) (box : Box) : Bool :=
  match box.type with
  | .poly => isPointInPolygon px py box.points
  | .rect =>
    let centerX := box.x + box.w / 2
    let centerY := box.y + box.h / 2
    let dx := px - centerX
    let dy := py - centerY
    let rotatedX := dx * box.angleC - dy * (-box.angleS)
    let rotatedY := dx * (-box.angleS) + dy * box.angleC
    decide (|rotatedX| < box.w / 2) && decide (|rotatedY| < box.h / 2)

/-! ### The resize gesture (js/model.js handleMouseMove, lines 1375-1460) -/

/-- The eight resize-handle names (the rotation grip never starts a
resize). -/
inductive ResizeHandle where
  | nw | ne | sw | se | n | s | w | e
deriving DecidableEq

/-- JavaScript the source test handle.includes of the letter e on the handle-name string. -/
def hasE : ResizeHandle → Bool
  | .ne | .se | .e => true
  | _ => false

/-- JavaScript the source test handle.includes of the letter w on the handle-name string. -/
def hasW : ResizeHandle → Bool
  | .nw | .sw | .w => true
  | _ => false

/-- JavaScript the source test handle.includes of the letter n on the handle-name string. -/
def hasN : ResizeHandle → Bool
  | .nw | .ne | .n => true
  | _ => false

/-- JavaScript the source test handle.includes of the letter s on the handle-name string. -/
def hasS : ResizeHandle → Bool
  | .sw | .se | .s => true
  | _ => false

/-- The polygon-point transformation of the resize branch of
`handleMouseMove` (js/model.js lines 1433-1452), embedded statement by
statement: the pivot-relative vector is un-rotated into the local frame,
then multiplied by the per-axis scale factors by the four guarded
statements of lines 1439-1442 *and again* unconditionally by lines
1445-1446, rotated back, and the returned point reuses the x-component for
both coordinates (line 1451: `{x: pivotX + finalVecX, y: pivotY +
finalVecX}`). -/
def polyResizePoint (handle : ResizeHandle) (pivotX pivotY cosA sinA scaleX scaleY : ℚ)
    (p : Pt) : Pt :=
  let vecX := p.x - pivotX
  let vecY := p.y - pivotY
  let rx0 := vecX * cosA + vecY * sinA
  let ry0 := -vecX * sinA + vecY * cosA
  let rx1 := if !(hasW handle) then rx0 * scaleX else rx0
  let rx2 := if !(hasE handle) then rx1 * scaleX else rx1
  let ry1 := if !(hasN handle) then ry0 * scaleY else ry0
  let ry2 := if !(hasS handle) then ry1 * scaleY else ry1
  let rx3 := rx2 * scaleX
  let ry3 := ry2 * scaleY
  let finalVecX := rx3 * cosA - ry3 * sinA
  let finalVecY := rx3 * sinA + ry3 * cosA
  ⟨pivotX + finalVecX, pivotY + finalVecX⟩

/-- Modelled from the spec: the intended polygon-point resize map —
`pivot + R(angle) · diag(newW/oldW, newH/oldH) · R(-angle) · (p - pivot)`,
each axis scaled exactly once and each output coordinate taken from its own
rotated-back component.  Used only to compare with `polyResizePoint`. -/
def specResizePoint (pivotX pivotY cosA sinA scaleX scaleY : ℚ) (p : Pt) : Pt :=
  let vecX := p.x - pivotX
  let vecY := p.y - pivotY
  let rx := vecX * cosA + vecY * sinA
  let ry := -vecX * sinA + vecY * cosA
  let sx := rx * scaleX
  let sy := ry * scaleY
  let finalVecX := sx * cosA - sy * sinA
  let finalVecY := sx * sinA + sy * cosA
  ⟨pivotX + finalVecX, pivotY + finalVecY⟩

/-! ### Commit on pointer-up (js/model.js handleMouseUp, lines 1508-1523) -/

/-- The per-box commit of `handleMouseUp`: polygons get their bounding box
recomputed from the (possibly transformed) points; when the gesture was a
resize or rotation, width and height are forced positive. -/
def commitTransformBox (resizingOrRotating : Bool) (b : Box) : Box :=
  let b1 :=
    if b.type = BoxType.poly then
      let bb := calculateBoundingBox b.points
      { b with x := bb.x, y := bb.y, w := bb.w, h := bb.h }
    else b
  if resizingOrRotating then { b1 with w := |b1.w|, h := |b1.h| } else b1

/-- `this.model.boxes.find(b => b.id === id)` followed by an in-place
mutation: replace the first box carrying the given id. -/
def updateFirstById (i : ℕ) (f : Box → Box) : List Box → List Box
  | [] => []
  | b :: bs => if b.id = i then f b :: bs else b :: updateFirstById i f bs

/-- The transform-finalization loop of `handleMouseUp` (js/model.js lines
1509-1521): for each selected id, commit the box carrying that id. -/
def finalizeTransforms (boxes : List Box) (selectedBoxIds : List ℕ)
    (resizingOrRotating : Bool) : List Box :=
  selectedBoxIds.foldl
    (fun bs i => updateFirstById i (commitTransformBox resizingOrRotating) bs) boxes

/-! ### Annotation import (js/model.js handleImportAnnotations, lines
2192-2238)

The import handler operates on freshly parsed JSON, so its inputs are
looser-typed than the boxes of the session itself; the embedding types an imported
element by the fields the handler actually inspects: its `x` property,
which may be absent, a number, or some other JSON value, and its `id`
(used by the `currentAnnotations` setter it feeds into). -/

/-- A JSON value as far as the import validation distinguishes them. -/
inductive JVal where
  | num (q : ℚ)
  | str (s : String)
  | boolean (b : Bool)
  | null
deriving DecidableEq

/-- An element of the imported annotation array: `x` is `none` when the
property is absent (JavaScript `undefined`). -/
structure ImpBox where
  id : ℕ
  x : Option JVal
deriving DecidableEq

/-- The parsed import payload: a raw array, the wrapper object
`{annotations: [...], imageData?}`, or anything else (which the handler
turns into an "Invalid JSON format" error). -/
inductive ImportPayload where
  | arr (bs : List ImpBox)
  | wrapper (bs : List ImpBox) (hasImageData : Bool)
  | invalid
deriving DecidableEq

/-- The store fields touched by the import handler, at the loose typing
level import operates at. -/
structure ImportState where
  boxes : List ImpBox
  nextId : ℕ
  history : List (List ImpBox)
  redoStack : List (List ImpBox)
deriving DecidableEq

/-- The id allocator recomputation of the `currentAnnotations` setter, as
invoked on imported data. -/
def impSetNextId (newBoxes : List ImpBox) : ℕ :=
  if newBoxes = [] then 0
  else (newBoxes.foldl (fun m b => max m b.id) 0) + 1

/-- js/model.js `handleImportAnnotations` (lines 2192-2238), the reader
callback: extract the annotation array (throwing on an unrecognized
payload), throw "Invalid annotation data structure." when the array is
non-empty and the undefined-typeof test on the first elements x, and otherwise
clear the store, assign the imported boxes through the
`currentAnnotations` setter and save the single new state.  Both throws
happen before any mutation, so the catch branch returns the state
unchanged; the boolean result records whether an error toast was shown. -/
def handleImportAnnotations (st : ImportState) (payload : ImportPayload) :
    ImportState × Bool :=
  match payload with
  | .invalid => (st, true)
  | .arr importedBoxes =>
    if importedBoxes.length > 0 ∧ (importedBoxes.headD ⟨0, none⟩).x = none then
      (st, true)
    else
      ({ boxes := importedBoxes, nextId := impSetNextId importedBoxes,
         history := [importedBoxes], redoStack := [] }, false)
  | .wrapper importedBoxes _ =>
    if importedBoxes.length > 0 ∧ (importedBoxes.headD ⟨0, none⟩).x = none then
      (st, true)
    else
      ({ boxes := importedBoxes, nextId := impSetNextId importedBoxes,
         history := [importedBoxes], redoStack := [] }, false)

/-! ## Theorems -/

/-- All live ids are below the allocator — the freshness invariant of the
store. -/
def idsBounded (st : ModelState) : Prop :=
  ∀ b ∈ st.boxes, b.id < st.nextId

theorem le_foldl_max (l : List Box) (a : ℕ) :
    a ≤ l.foldl (fun m b => max m b.id) a := by
  induction l generalizing a with
  | nil => exact le_refl a
  | cons c cs ih => exact le_trans (le_max_left a c.id) (ih (max a c.id))

theorem mem_le_foldl_max (l : List Box) (a : ℕ) :
    ∀ b ∈ l, b.id ≤ l.foldl (fun m b => max m b.id) a := by
  induction l generalizing a with
  | nil => intro b hb; cases hb
  | cons c cs ih =>
    intro b hb
    rcases List.mem_cons.mp hb with hbc | hbcs
    · subst hbc
      exact le_trans (le_max_right a b.id) (le_foldl_max cs (max a b.id))
    · exact ih (max a c.id) b hbcs

theorem foldl_max_attained (l : List Box) (a : ℕ) :
    l.foldl (fun m b => max m b.id) a = a ∨
      ∃ b ∈ l, l.foldl (fun m b => max m b.id) a = b.id := by
  induction l generalizing a with
  | nil => exact Or.inl rfl
  | cons c cs ih =>
    rcases ih (max a c.id) with h | ⟨b, hb, hfb⟩
    · rcases Nat.le_total a c.id with hle | hle
      · exact Or.inr ⟨c, List.mem_cons_self c cs, by
          simpa [Nat.max_eq_right hle] using h⟩
      · exact Or.inl (by simpa [Nat.max_eq_left hle] using h)
    · exact Or.inr ⟨b, List.mem_cons_of_mem c hb, hfb⟩

/-- C1: during a resize gesture on a selected polygon, the point map of the spec
is `pivot + R(angle) · diag(newW/oldW, newH/oldH) · R(-angle) · (p - pivot)`
with each axis scaled exactly once and each output coordinate built from
its own component.  The source (js/model.js lines 1433-1452) instead
applies the x scale factor twice for the `se` handle (lines 1439 and 1445),
the y scale factor twice (lines 1441 and 1446), and returns
`{x: pivotX + finalVecX, y: pivotY + finalVecX}` (line 1451), reusing the
x-component for y.  At pivot (0,0), angle 0, scale factors 2 on both axes,
handle `se`, the point (1,2) is sent to (4,4) by the code while the
specified map sends it to (2,4). -/
theorem C1_polyResizePoint_diverges :
    polyResizePoint ResizeHandle.se 0 0 1 0 2 2 ⟨1, 2⟩ = ⟨4, 4⟩ ∧
    specResizePoint 0 0 1 0 2 2 ⟨1, 2⟩ = ⟨2, 4⟩ ∧
    polyResizePoint ResizeHandle.se 0 0 1 0 2 2 ⟨1, 2⟩ ≠
      specResizePoint 0 0 1 0 2 2 ⟨1, 2⟩ := by
  refine ⟨?_, ?_, ?_⟩ <;>
    norm_num [polyResizePoint, specResizePoint, hasE, hasW, hasN, hasS,
      Pt.mk.injEq]

/-- C2 counterexample: fit-to-screen on a 1000×1000 image shown in a
100×100 canvas assigns scale 1/10, strictly below `MIN_SCALE = 1/5` — the
claim that every scale-assigning operation stays within
`[MIN_SCALE, MAX_SCALE]` fails at this input. -/
theorem C2_fitToScreen_escapes_bounds :
    (handleFitToScreen initState 1000 1000 100 100).scale = 1 / 10 ∧
    ¬ MIN_SCALE ≤ (handleFitToScreen initState 1000 1000 100 100).scale := by
  refine ⟨?_, ?_⟩ <;> norm_num [handleFitToScreen, MIN_SCALE]

/-- C2 amended: zooming always leaves the scale within
`[MIN_SCALE, MAX_SCALE]` (whatever the prior scale, image/canvas size and
zoom factor), and the view reset / image-load path sets scale 1 which lies
within the bounds; `handleFitToScreen`, however, assigns the unclamped
`min(canvasW/naturalW, canvasH/naturalH)`, which can leave the interval. -/
theorem C2_scale_bounds_amended :
    (∀ (st : ModelState) (factor cX cY : ℚ),
      MIN_SCALE ≤ (zoomCanvas st factor cX cY).scale ∧
      (zoomCanvas st factor cX cY).scale ≤ MAX_SCALE) ∧
    (MIN_SCALE ≤ resetAppState.scale ∧ resetAppState.scale ≤ MAX_SCALE) := by
  constructor
  · intro st factor cX cY
    have hclamp : MIN_SCALE ≤ max MIN_SCALE (min MAX_SCALE (st.scale * factor)) ∧
        max MIN_SCALE (min MAX_SCALE (st.scale * factor)) ≤ MAX_SCALE :=
      ⟨le_max_left _ _,
       max_le (by norm_num [MIN_SCALE, MAX_SCALE]) (min_le_left _ _)⟩
    simp only [zoomCanvas]
    split
    · rename_i h
      exact ⟨h ▸ hclamp.1, h ▸ hclamp.2⟩
    · exact hclamp
  · constructor <;> norm_num [resetAppState, saveState, MIN_SCALE, MAX_SCALE]

/-- C6: zooming computes `newScale = clamp(scale · factor, MIN_SCALE,
MAX_SCALE)`; when the clamped scale equals the old one the state is
untouched; otherwise each pan axis becomes
`center - (center - pan) · (newScale/oldScale)`, and any world point that
was at the zoom center on screen stays there. -/
theorem C6_zoomCanvas_spec (st : ModelState) (factor cX cY : ℚ) :
    ((zoomCanvas st factor cX cY).scale
        = max MIN_SCALE (min MAX_SCALE (st.scale * factor))) ∧
    (max MIN_SCALE (min MAX_SCALE (st.scale * factor)) = st.scale →
        zoomCanvas st factor cX cY = st) ∧
    (max MIN_SCALE (min MAX_SCALE (st.scale * factor)) ≠ st.scale →
        (zoomCanvas st factor cX cY).panX
            = cX - (cX - st.panX)
                * (max MIN_SCALE (min MAX_SCALE (st.scale * factor)) / st.scale) ∧
        (zoomCanvas st factor cX cY).panY
            = cY - (cY - st.panY)
                * (max MIN_SCALE (min MAX_SCALE (st.scale * factor)) / st.scale)) ∧
    (st.scale ≠ 0 → ∀ wx : ℚ, wx * st.scale + st.panX = cX →
        wx * (zoomCanvas st factor cX cY).scale
          + (zoomCanvas st factor cX cY).panX = cX) ∧
    (st.scale ≠ 0 → ∀ wy : ℚ, wy * st.scale + st.panY = cY →
        wy * (zoomCanvas st factor cX cY).scale
          + (zoomCanvas st factor cX cY).panY = cY) := by
  simp only [zoomCanvas]
  split
  · rename_i h
    exact ⟨h.symm, fun _ => rfl, fun hne => absurd h hne,
      fun _ wx hwx => hwx, fun _ wy hwy => hwy⟩
  · rename_i h
    refine ⟨rfl, fun heq => absurd heq h, fun _ => ⟨rfl, rfl⟩, ?_, ?_⟩
    · intro hs wx hwx
      have hx : cX - st.panX = wx * st.scale := by linarith
      show wx * (max MIN_SCALE (min MAX_SCALE (st.scale * factor)))
          + (cX - (cX - st.panX)
              * (max MIN_SCALE (min MAX_SCALE (st.scale * factor)) / st.scale)) = cX
      rw [hx]
      field_simp
      ring
    · intro hs wy hwy
      have hy : cY - st.panY = wy * st.scale := by linarith
      show wy * (max MIN_SCALE (min MAX_SCALE (st.scale * factor)))
          + (cY - (cY - st.panY)
              * (max MIN_SCALE (min MAX_SCALE (st.scale * factor)) / st.scale)) = cY
      rw [hy]
      field_simp
      ring

/-- C6 witness: zoom at factor 2 from scale 1 centered at (10, 10); the
clamp gives scale 2, the pan moves to keep the world point (10, 10) — which
sat at the zoom center — fixed on screen. -/
theorem C6_zoomCanvas_spec_witness :
    (zoomCanvas ⟨[], 0, [], [], 1, 0, 0⟩ 2 10 10).scale
        = max MIN_SCALE (min MAX_SCALE ((1 : ℚ) * 2)) ∧
    (10 : ℚ) * (zoomCanvas ⟨[], 0, [], [], 1, 0, 0⟩ 2 10 10).scale
        + (zoomCanvas ⟨[], 0, [], [], 1, 0, 0⟩ 2 10 10).panX = 10 :=
  ⟨(C6_zoomCanvas_spec ⟨[], 0, [], [], 1, 0, 0⟩ 2 10 10).1,
   (C6_zoomCanvas_spec ⟨[], 0, [], [], 1, 0, 0⟩ 2 10 10).2.2.2.1 (by norm_num) 10
     (by norm_num)⟩

/-- The ray-crossing test is direction-independent: traversing the same
segment from either end gives the same answer (the straddle test is
symmetric, and when it holds the two x-intercept expressions denote the
same point of the same line). -/
theorem edgeCrosses_comm (px py : ℚ) (p q : Pt) :
    edgeCrosses px py p q = edgeCrosses px py q p := by
  unfold edgeCrosses
  by_cases hy : p.y = q.y
  · simp [hy]
  · have hint : (q.x - p.x) * (py - p.y) / (q.y - p.y) + p.x
        = (p.x - q.x) * (py - q.y) / (p.y - q.y) + q.x := by
      have h1 : q.y - p.y ≠ 0 := fun h => hy (by linarith)
      have h2 : p.y - q.y ≠ 0 := fun h => hy (by linarith)
      field_simp
      ring
    rw [hint]
    cases hA : decide (p.y > py) <;> cases hB : decide (q.y > py) <;> rfl

/-- C10: a polygon with fewer than three points contains no point at all:
with zero points the loop body never runs; with one point the single
degenerate edge never straddles the ray; with two points the two edges are
the same segment traversed in both directions, so the parity flips an even
number of times. -/
theorem C10_degenerate_polygon_contains_nothing
    (points : List Pt) (h : points.length < 3) :
    ∀ px py, isPointInPolygon px py points = false := by
  intro px py
  match points, h with
  | [], _ => rfl
  | [p], _ =>
    simp [isPointInPolygon, edgeCrosses, List.range_succ]
  | [p, q], _ =>
    have hcomm := edgeCrosses_comm px py q p
    simp only [isPointInPolygon, List.length_cons, List.length_nil,
      List.range_succ, List.range_zero, List.nil_append, List.cons_append,
      List.foldl_cons, List.foldl_nil, List.getD]
    norm_num
    rw [← hcomm]
    cases hE : edgeCrosses px py q p <;> simp [hE]

/-- C10 witness: the two-point "polygon" [(0,0), (2,2)] reports the point
(1, 1) — which lies on the segment — as outside. -/
theorem C10_degenerate_polygon_witness :
    ([(⟨0, 0⟩ : Pt), ⟨2, 2⟩] : List Pt).length < 3 ∧
    isPointInPolygon 1 1 [(⟨0, 0⟩ : Pt), ⟨2, 2⟩] = false :=
  ⟨by decide,
   C10_degenerate_polygon_contains_nothing [⟨0, 0⟩, ⟨2, 2⟩] (by decide) 1 1⟩

/-- C3 counterexample: the import payload `[{id: 5, x: "a"}]` is a
non-empty array whose first element has no *numeric* `x` (its `x` is the
string `"a"`), yet the handler — which only tests
the undefined-typeof test on the first elements x — accepts it, replaces the
shape list, and reports no error; the claim that such imports are rejected
fails here. -/
theorem C3_nonNumeric_x_accepted :
    (handleImportAnnotations ⟨[], 0, [[]], []⟩
        (.arr [⟨5, some (JVal.str "a")⟩])).2 = false ∧
    (handleImportAnnotations ⟨[], 0, [[]], []⟩
        (.arr [⟨5, some (JVal.str "a")⟩])).1.boxes = [⟨5, some (JVal.str "a")⟩] ∧
    ¬ ∃ q : ℚ, (([⟨5, some (JVal.str "a")⟩] : List ImpBox).headD ⟨0, none⟩).x
        = some (JVal.num q) := by
  refine ⟨?_, ?_, ?_⟩
  · simp [handleImportAnnotations]
  · simp [handleImportAnnotations, impSetNextId]
  · rintro ⟨q, hq⟩
    simp at hq

/-- C3 amended: the import handler rejects — reporting an error and
applying nothing — whenever the imported array is non-empty and its first
first-element `x` property is *absent* (JavaScript `undefined`); a present but
non-numeric `x` is accepted.  On every such rejected import the shape
list, history, and redo stack are left exactly as they were. -/
theorem C3_import_reject_atomic (st : ImportState) (bs : List ImpBox)
    (hne : bs ≠ []) (hx : (bs.headD ⟨0, none⟩).x = none) :
    handleImportAnnotations st (.arr bs) = (st, true) ∧
    ∀ hasImg : Bool, handleImportAnnotations st (.wrapper bs hasImg) = (st, true) := by
  match bs, hne, hx with
  | b :: bs2, _, hx =>
    simp only [List.headD_cons] at hx
    constructor
    · simp [handleImportAnnotations, hx]
    · intro hasImg
      simp [handleImportAnnotations, hx]

/-- C3 witness: importing `[{id: 5}]` (no `x` at all) into a store holding
one annotation leaves that store — boxes, history, redo stack — untouched
and reports the error. -/
theorem C3_import_reject_atomic_witness :
    handleImportAnnotations ⟨[⟨0, some (JVal.num 1)⟩], 1, [[⟨0, some (JVal.num 1)⟩], []], []⟩
        (.arr [⟨5, none⟩])
      = (⟨[⟨0, some (JVal.num 1)⟩], 1, [[⟨0, some (JVal.num 1)⟩], []], []⟩, true) :=
  (C3_import_reject_atomic ⟨[⟨0, some (JVal.num 1)⟩], 1, [[⟨0, some (JVal.num 1)⟩], []], []⟩
    [⟨5, none⟩] (by simp) (by simp)).1

/-- C4 counterexample: ids are reused within a session.  Starting from the
initial state: add a rectangle (allocates id 0), save, undo (the
`currentAnnotations` setter recomputes the allocator of the restored empty
list to 0), then add again — the second add allocates id 0, the id of a
shape that existed earlier in the session. -/
theorem C4_id_reused_after_undo :
    ((addBox initState ⟨10, 20, 30, 40⟩).2).id = 0 ∧
    ((addBox (undo (saveState (addBox initState ⟨10, 20, 30, 40⟩).1)).1
        ⟨10, 20, 30, 40⟩).2).id = 0 :=
  ⟨rfl, rfl⟩

/-- C4 amended: ids stay unique among the live shapes and fresh against the
live allocator, and the allocator after a bulk replace is
`max(existing ids) + 1` (or 0 if empty): the `currentAnnotations` setter
bounds every restored id and its result is one above some restored id when
non-empty; under the invariant that all live ids are below `nextId`,
`addBox` and `copyBox` allocate ids distinct from the id of every live shape
and preserve the invariant together with id-distinctness, `deleteBox`
preserves both, and `undo`/`redo` preserve the bound.  (Never-reuse across
a whole session fails: see the counterexample.) -/
theorem C4_id_invariants :
    (∀ (st : ModelState) (newBoxes : List Box),
      (newBoxes = [] → (setCurrentAnnotations st newBoxes).nextId = 0) ∧
      (∀ b ∈ newBoxes, b.id < (setCurrentAnnotations st newBoxes).nextId) ∧
      (newBoxes ≠ [] →
        ∃ b ∈ newBoxes, (setCurrentAnnotations st newBoxes).nextId = b.id + 1)) ∧
    (∀ (st : ModelState) (bb : BBox), idsBounded st →
      (∀ b ∈ st.boxes, (addBox st bb).2.id ≠ b.id) ∧
      idsBounded (addBox st bb).1 ∧
      ((st.boxes.map Box.id).Nodup → (((addBox st bb).1.boxes.map Box.id).Nodup))) ∧
    (∀ (st : ModelState) (i : ℕ), idsBounded st →
      (∀ nb, (copyBox st i).2 = some nb → ∀ b ∈ st.boxes, nb.id ≠ b.id) ∧
      idsBounded (copyBox st i).1 ∧
      ((st.boxes.map Box.id).Nodup → (((copyBox st i).1.boxes.map Box.id).Nodup))) ∧
    (∀ (st : ModelState) (i : ℕ), idsBounded st →
      idsBounded (deleteBox st i) ∧
      ((st.boxes.map Box.id).Nodup → (((deleteBox st i).boxes.map Box.id).Nodup))) ∧
    (∀ st : ModelState, idsBounded st →
      idsBounded (undo st).1 ∧ idsBounded (redo st).1) := by
  have hsetter : ∀ (st : ModelState) (newBoxes : List Box),
      (newBoxes = [] → (setCurrentAnnotations st newBoxes).nextId = 0) ∧
      (∀ b ∈ newBoxes, b.id < (setCurrentAnnotations st newBoxes).nextId) ∧
      (newBoxes ≠ [] →
        ∃ b ∈ newBoxes, (setCurrentAnnotations st newBoxes).nextId = b.id + 1) := by
    intro st newBoxes
    refine ⟨?_, ?_, ?_⟩
    · intro h
      simp [setCurrentAnnotations, setNextId, h]
    · intro b hb
      have hne : newBoxes ≠ [] := by rintro rfl; cases hb
      simp only [setCurrentAnnotations, setNextId, if_neg hne]
      exact Nat.lt_succ_of_le (mem_le_foldl_max newBoxes 0 b hb)
    · intro hne
      simp only [setCurrentAnnotations, setNextId, if_neg hne]
      rcases foldl_max_attained newBoxes 0 with h0 | ⟨b, hb, hfb⟩
      · match newBoxes, hne, h0 with
        | c :: cs, _, h0 =>
          refine ⟨c, List.mem_cons_self c cs, ?_⟩
          have hcle : c.id ≤ List.foldl (fun m b => max m b.id) 0 (c :: cs) :=
            mem_le_foldl_max (c :: cs) 0 c (List.mem_cons_self c cs)
          omega
      · exact ⟨b, hb, by rw [hfb]⟩
  have hboundSetter : ∀ (st : ModelState) (newBoxes : List Box),
      idsBounded (setCurrentAnnotations st newBoxes) := by
    intro st newBoxes b hb
    exact (hsetter st newBoxes).2.1 b hb
  refine ⟨hsetter, ?_, ?_, ?_, ?_⟩
  · intro st bb hinv
    refine ⟨?_, ?_, ?_⟩
    · intro b hb
      exact Nat.ne_of_gt (hinv b hb)
    · intro b hb
      rcases List.mem_append.mp hb with hold | hnew
      · exact Nat.lt_succ_of_lt (hinv b hold)
      · simp only [List.mem_singleton] at hnew
        subst hnew
        simp [addBox]
    · intro hnodup
      simp only [addBox, List.map_append, List.map_cons, List.map_nil]
      rw [List.nodup_append]
      refine ⟨hnodup, List.nodup_singleton _, ?_⟩
      intro a ha hb
      simp only [List.mem_singleton] at hb
      subst hb
      rcases List.mem_map.mp ha with ⟨b, hbmem, hbid⟩
      exact absurd hbid (Nat.ne_of_lt (hinv b hbmem))
  · intro st i hinv
    match hfind : st.boxes.find? (fun b => b.id = i) with
    | none =>
      refine ⟨?_, ?_, ?_⟩
      · intro nb hnb
        simp [copyBox, hfind] at hnb
      · simpa [copyBox, hfind] using hinv
      · intro hnodup
        simpa [copyBox, hfind] using hnodup
    | some boxToCopy =>
      have hid : ∀ nb, (copyBox st i).2 = some nb → nb.id = st.nextId := by
        intro nb hnb
        simp only [copyBox, hfind] at hnb
        split at hnb <;> (injection hnb with h; subst h; rfl)
      have hboxes : ∃ nb, (copyBox st i).1.boxes = st.boxes ++ [nb] ∧ nb.id = st.nextId := by
        simp only [copyBox, hfind]
        split <;> exact ⟨_, rfl, rfl⟩
      have hnext : (copyBox st i).1.nextId = st.nextId + 1 := by
        simp only [copyBox, hfind]
      refine ⟨?_, ?_, ?_⟩
      · intro nb hnb b hb
        rw [hid nb hnb]
        exact Nat.ne_of_gt (hinv b hb)
      · rcases hboxes with ⟨nb, hbs, hnb⟩
        intro b hb
        rw [hbs] at hb
        rw [hnext]
        rcases List.mem_append.mp hb with hold | hnew
        · exact Nat.lt_succ_of_lt (hinv b hold)
        · simp only [List.mem_singleton] at hnew
          subst hnew
          omega
      · intro hnodup
        rcases hboxes with ⟨nb, hbs, hnb⟩
        rw [hbs, List.map_append, List.map_cons, List.map_nil, List.nodup_append]
        refine ⟨hnodup, List.nodup_singleton _, ?_⟩
        intro a ha hbmem
        simp only [List.mem_singleton] at hbmem
        subst hbmem
        rcases List.mem_map.mp ha with ⟨b, hbm, hbid⟩
        have hlt := hinv b hbm
        omega
  · intro st i hinv
    refine ⟨?_, ?_⟩
    · intro b hb
      exact hinv b (List.mem_of_mem_filter hb)
    · intro hnodup
      exact List.Nodup.sublist
        (List.Sublist.map Box.id (List.filter_sublist st.boxes)) hnodup
  · intro st hinv
    constructor
    · match hh : st.history with
      | top :: newTop :: rest =>
        simp only [undo, hh]
        exact hboundSetter _ newTop
      | [] => simpa [undo, hh] using hinv
      | [top] => simpa [undo, hh] using hinv
    · match hh : st.redoStack with
      | nextState :: rest =>
        simp only [redo, hh]
        exact hboundSetter _ nextState
      | [] => simpa [redo, hh] using hinv

/-- C4 witness: in the initial empty store the invariant holds and adding a
box allocates an id distinct from every (vacuously no) live id. -/
theorem C4_id_invariants_witness :
    (∀ b ∈ initState.boxes, (addBox initState ⟨10, 20, 30, 40⟩).2.id ≠ b.id) ∧
    idsBounded (addBox initState ⟨10, 20, 30, 40⟩).1 :=
  ⟨(C4_id_invariants.2.1 initState ⟨10, 20, 30, 40⟩ (fun b hb => by cases hb)).1,
   (C4_id_invariants.2.1 initState ⟨10, 20, 30, 40⟩ (fun b hb => by cases hb)).2.1⟩

/-- C5: from any committed state (the live shape list equals the top
history snapshot) with at least one undoable snapshot below it, `undo`
followed by `redo` restores the shape list exactly and leaves both the
history stack and the redo stack as they were before the undo. -/
theorem C5_undo_redo_roundtrip (st : ModelState) (rest : List (List Box))
    (hhist : st.history = st.boxes :: rest) (hrest : rest ≠ []) :
    (redo (undo st).1).1.boxes = st.boxes ∧
    (redo (undo st).1).1.history = st.history ∧
    (redo (undo st).1).1.redoStack = st.redoStack := by
  match rest, hrest with
  | newTop :: rest2, _ =>
    simp [undo, redo, hhist, setCurrentAnnotations]

/-- C5 witness: a store holding one rectangle on top of the initial empty
snapshot round-trips through undo/redo back to the same shape list,
history, and redo stack. -/
theorem C5_undo_redo_roundtrip_witness :
    (redo (undo ⟨[⟨0, .rect, 10, 20, 30, 40, 1, 0, "Not defined", []⟩], 1,
        [[⟨0, .rect, 10, 20, 30, 40, 1, 0, "Not defined", []⟩], []], [], 1, 0, 0⟩).1).1.boxes
      = [⟨0, .rect, 10, 20, 30, 40, 1, 0, "Not defined", []⟩] ∧
    (redo (undo ⟨[⟨0, .rect, 10, 20, 30, 40, 1, 0, "Not defined", []⟩], 1,
        [[⟨0, .rect, 10, 20, 30, 40, 1, 0, "Not defined", []⟩], []], [], 1, 0, 0⟩).1).1.history
      = [[⟨0, .rect, 10, 20, 30, 40, 1, 0, "Not defined", []⟩], []] ∧
    (redo (undo ⟨[⟨0, .rect, 10, 20, 30, 40, 1, 0, "Not defined", []⟩], 1,
        [[⟨0, .rect, 10, 20, 30, 40, 1, 0, "Not defined", []⟩], []], [], 1, 0, 0⟩).1).1.redoStack
      = [] :=
  C5_undo_redo_roundtrip
    ⟨[⟨0, .rect, 10, 20, 30, 40, 1, 0, "Not defined", []⟩], 1,
     [[⟨0, .rect, 10, 20, 30, 40, 1, 0, "Not defined", []⟩], []], [], 1, 0, 0⟩
    [[]] rfl (by simp)

/-- C9: duplicating an existing id appends a fresh shape whose bounding box
is the original box translated by exactly +10 on both axes, preserving
width, height, angle, type, and label, translating every polygon point by
the same (+10, +10); the new id differs from the id of every live shape (under
the live-ids-below-allocator invariant), the original list is kept intact
as a prefix, and the shape count grows by one.  Duplicating an id that is
not in the store returns null and changes nothing. -/
theorem C9_copyBox_spec :
    (∀ (st : ModelState) (i : ℕ) (b : Box),
      st.boxes.find? (fun bb => bb.id = i) = some b →
      idsBounded st →
      ∃ nb : Box,
        copyBox st i
            = ({ st with boxes := st.boxes ++ [nb], nextId := st.nextId + 1 }, some nb) ∧
        nb.x = b.x + 10 ∧ nb.y = b.y + 10 ∧ nb.w = b.w ∧ nb.h = b.h ∧
        nb.angleC = b.angleC ∧ nb.angleS = b.angleS ∧ nb.text = b.text ∧
        nb.type = b.type ∧
        (b.type = BoxType.poly →
          nb.points = b.points.map (fun p => ⟨p.x + 10, p.y + 10⟩)) ∧
        (b.type ≠ BoxType.poly → nb.points = b.points) ∧
        (∀ b2 ∈ st.boxes, nb.id ≠ b2.id) ∧
        (copyBox st i).1.boxes.length = st.boxes.length + 1) ∧
    (∀ (st : ModelState) (i : ℕ),
      st.boxes.find? (fun bb => bb.id = i) = none → copyBox st i = (st, none)) := by
  constructor
  · intro st i b hfind hinv
    by_cases hp : b.type = BoxType.poly
    · refine ⟨{ b with
                id := st.nextId,
                x := b.x + 10,
                y := b.y + 10,
                points := b.points.map (fun p => ⟨p.x + 10, p.y + 10⟩) },
        ?_, rfl, rfl, rfl, rfl, rfl, rfl, rfl, rfl, fun _ => rfl,
        fun hnp => absurd hp hnp, ?_, ?_⟩
      · simp [copyBox, hfind, hp]
      · intro b2 hb2
        exact Nat.ne_of_gt (hinv b2 hb2)
      · simp [copyBox, hfind, hp]
    · refine ⟨{ b with id := st.nextId, x := b.x + 10, y := b.y + 10 },
        ?_, rfl, rfl, rfl, rfl, rfl, rfl, rfl, rfl,
        fun hpp => absurd hpp hp, fun _ => rfl, ?_, ?_⟩
      · simp [copyBox, hfind, hp]
      · intro b2 hb2
        exact Nat.ne_of_gt (hinv b2 hb2)
      · simp [copyBox, hfind, hp]
  · intro st i hfind
    simp [copyBox, hfind]

/-- C9 witness: the scenario from the spec itself — a store holding the rectangle
`{x:10, y:20, w:30, h:40}` with id 0; duplicating id 0 appends a rectangle
`{x:20, y:30, w:30, h:40}` with the fresh id 1 and the count becomes 2. -/
theorem C9_copyBox_spec_witness :
    ∃ nb : Box,
      copyBox ⟨[⟨0, .rect, 10, 20, 30, 40, 1, 0, "Not defined", []⟩], 1,
          [[]], [], 1, 0, 0⟩ 0
          = ({ (⟨[⟨0, .rect, 10, 20, 30, 40, 1, 0, "Not defined", []⟩], 1,
                [[]], [], 1, 0, 0⟩ : ModelState) with
              boxes := [⟨0, .rect, 10, 20, 30, 40, 1, 0, "Not defined", []⟩] ++ [nb],
              nextId := 1 + 1 }, some nb) ∧
      nb.x = (10 : ℚ) + 10 ∧ nb.y = (20 : ℚ) + 10 ∧ nb.w = (30 : ℚ) ∧ nb.h = (40 : ℚ) ∧
      nb.angleC = (1 : ℚ) ∧ nb.angleS = (0 : ℚ) ∧ nb.text = "Not defined" ∧
      nb.type = BoxType.rect ∧
      (BoxType.rect = BoxType.poly →
        nb.points = ([] : List Pt).map (fun p => ⟨p.x + 10, p.y + 10⟩)) ∧
      (BoxType.rect ≠ BoxType.poly → nb.points = ([] : List Pt)) ∧
      (∀ b2 ∈ [(⟨0, .rect, 10, 20, 30, 40, 1, 0, "Not defined", []⟩ : Box)], nb.id ≠ b2.id) ∧
      (copyBox ⟨[⟨0, .rect, 10, 20, 30, 40, 1, 0, "Not defined", []⟩], 1,
          [[]], [], 1, 0, 0⟩ 0).1.boxes.length
        = [(⟨0, .rect, 10, 20, 30, 40, 1, 0, "Not defined", []⟩ : Box)].length + 1 :=
  C9_copyBox_spec.1
    ⟨[⟨0, .rect, 10, 20, 30, 40, 1, 0, "Not defined", []⟩], 1, [[]], [], 1, 0, 0⟩ 0
    ⟨0, .rect, 10, 20, 30, 40, 1, 0, "Not defined", []⟩
    (by simp)
    (by intro b hb; simp only [List.mem_singleton] at hb; subst hb; exact Nat.zero_lt_one)

/-- The polygon bounding-box invariant of the spec: the stored polygon
box equals `calculateBoundingBox` of its points. -/
def polyBoxConsistent (b : Box) : Prop :=
  b.type = BoxType.poly →
    b.x = (calculateBoundingBox b.points).x ∧
    b.y = (calculateBoundingBox b.points).y ∧
    b.w = (calculateBoundingBox b.points).w ∧
    b.h = (calculateBoundingBox b.points).h

theorem foldl_min_le_init (f : Pt → ℚ) (ps : List Pt) (a : ℚ) :
    ps.foldl (fun m q => min m (f q)) a ≤ a := by
  induction ps generalizing a with
  | nil => exact le_refl a
  | cons c cs ih => exact le_trans (ih (min a (f c))) (min_le_left a (f c))

theorem init_le_foldl_max (f : Pt → ℚ) (ps : List Pt) (a : ℚ) :
    a ≤ ps.foldl (fun m q => max m (f q)) a := by
  induction ps generalizing a with
  | nil => exact le_refl a
  | cons c cs ih => exact le_trans (le_max_left a (f c)) (ih (max a (f c)))

theorem calculateBoundingBox_w_nonneg (ps : List Pt) :
    0 ≤ (calculateBoundingBox ps).w := by
  match ps with
  | [] => exact le_refl 0
  | p :: ps2 =>
    have h1 := foldl_min_le_init (fun q => q.x) ps2 p.x
    have h2 := init_le_foldl_max (fun q => q.x) ps2 p.x
    simp only [calculateBoundingBox]
    linarith

theorem calculateBoundingBox_h_nonneg (ps : List Pt) :
    0 ≤ (calculateBoundingBox ps).h := by
  match ps with
  | [] => exact le_refl 0
  | p :: ps2 =>
    have h1 := foldl_min_le_init (fun q => q.y) ps2 p.y
    have h2 := init_le_foldl_max (fun q => q.y) ps2 p.y
    simp only [calculateBoundingBox]
    linarith

theorem commitTransformBox_id (rr : Bool) (b : Box) :
    (commitTransformBox rr b).id = b.id := by
  simp only [commitTransformBox]
  split <;> split <;> rfl

theorem commitTransformBox_consistent (rr : Bool) (b : Box) :
    polyBoxConsistent (commitTransformBox rr b) := by
  intro hp
  by_cases hb : b.type = BoxType.poly
  · have hw := calculateBoundingBox_w_nonneg b.points
    have hh := calculateBoundingBox_h_nonneg b.points
    simp only [commitTransformBox, hb, if_true]
    split <;> simp [abs_of_nonneg hw, abs_of_nonneg hh]
  · exfalso
    apply hb
    simp only [commitTransformBox, if_neg hb] at hp
    split at hp
    · simpa using hp
    · exact hp

theorem updateFirstById_map_id (i : ℕ) (f : Box → Box)
    (hf : ∀ b, (f b).id = b.id) (l : List Box) :
    (updateFirstById i f l).map Box.id = l.map Box.id := by
  induction l with
  | nil => rfl
  | cons c cs ih =>
    by_cases hc : c.id = i
    · simp [updateFirstById, hc, hf c]
    · simp [updateFirstById, hc, ih]

theorem mem_updateFirstById_ne (i : ℕ) (f : Box → Box)
    (hf : ∀ b, (f b).id = b.id) (l : List Box) (b : Box)
    (hb : b ∈ updateFirstById i f l) (hne : b.id ≠ i) : b ∈ l := by
  induction l with
  | nil => cases hb
  | cons c cs ih =>
    by_cases hc : c.id = i
    · simp only [updateFirstById, hc, if_pos rfl] at hb
      rcases List.mem_cons.mp hb with hfc | hcs
      · exact absurd (hfc ▸ (hf c).trans hc) hne
      · exact List.mem_cons_of_mem c hcs
    · simp only [updateFirstById, if_neg hc] at hb
      rcases List.mem_cons.mp hb with hbc | hcs
      · exact hbc ▸ List.mem_cons_self c cs
      · exact List.mem_cons_of_mem c (ih hcs)

theorem mem_updateFirstById_eq (i : ℕ) (f : Box → Box) (l : List Box)
    (hnodup : (l.map Box.id).Nodup) (b : Box)
    (hb : b ∈ updateFirstById i f l) (heq : b.id = i) :
    ∃ b0 ∈ l, b0.id = i ∧ b = f b0 := by
  induction l with
  | nil => cases hb
  | cons c cs ih =>
    simp only [List.map_cons, List.nodup_cons] at hnodup
    by_cases hc : c.id = i
    · simp only [updateFirstById, hc, if_pos rfl] at hb
      rcases List.mem_cons.mp hb with hfc | hcs
      · exact ⟨c, List.mem_cons_self c cs, hc, hfc⟩
      · exfalso
        apply hnodup.1
        have hbm : b.id ∈ cs.map Box.id := List.mem_map.mpr ⟨b, hcs, rfl⟩
        rw [hc, ← heq]
        exact hbm
    · simp only [updateFirstById, if_neg hc] at hb
      rcases List.mem_cons.mp hb with hbc | hcs
      · exact absurd (hbc ▸ heq) hc
      · rcases ih hnodup.2 hcs with ⟨b0, hb0, hb0i, hbf⟩
        exact ⟨b0, List.mem_cons_of_mem c hb0, hb0i, hbf⟩

/-- The commit loop of `handleMouseUp`, characterized: with pairwise
distinct live ids, every selected box in the result satisfies the polygon
bounding-box invariant, and unselected boxes pass through untouched. -/
theorem finalizeTransforms_spec (rr : Bool) (selected : List ℕ) :
    ∀ boxes : List Box, (boxes.map Box.id).Nodup →
      (∀ b ∈ finalizeTransforms boxes selected rr,
        b.id ∈ selected → polyBoxConsistent b) ∧
      (∀ b ∈ finalizeTransforms boxes selected rr,
        b.id ∉ selected → b ∈ boxes) := by
  have hf : ∀ b, (commitTransformBox rr b).id = b.id := commitTransformBox_id rr
  induction selected with
  | nil =>
    intro boxes hnodup
    exact ⟨fun b hb hsel => absurd hsel (List.not_mem_nil b.id),
           fun b hb _ => hb⟩
  | cons i0 rest ih =>
    intro boxes hnodup
    have hnodup2 : ((updateFirstById i0 (commitTransformBox rr) boxes).map Box.id).Nodup := by
      rw [updateFirstById_map_id i0 _ hf boxes]
      exact hnodup
    have hstep : finalizeTransforms boxes (i0 :: rest) rr
        = finalizeTransforms (updateFirstById i0 (commitTransformBox rr) boxes) rest rr := rfl
    rcases ih (updateFirstById i0 (commitTransformBox rr) boxes) hnodup2 with ⟨ih1, ih2⟩
    constructor
    · intro b hb hsel
      rw [hstep] at hb
      by_cases hmem : b.id ∈ rest
      · exact ih1 b hb hmem
      · rcases List.mem_cons.mp hsel with hi0 | hrest
        · have hbup : b ∈ updateFirstById i0 (commitTransformBox rr) boxes :=
            ih2 b hb hmem
          rcases mem_updateFirstById_eq i0 _ boxes hnodup b hbup hi0 with
            ⟨b0, _, _, hbf⟩
          exact hbf ▸ commitTransformBox_consistent rr b0
        · exact absurd hrest hmem
    · intro b hb hnsel
      rw [hstep] at hb
      have hne : b.id ≠ i0 := fun h => hnsel (h ▸ List.mem_cons_self i0 rest)
      have hnrest : b.id ∉ rest := fun h => hnsel (List.mem_cons_of_mem i0 h)
      exact mem_updateFirstById_ne i0 _ hf boxes b (ih2 b hb hnrest) hne

/-- C7: immediately after the pointer-up commit of any drag/resize/rotate
gesture, every polygon among the selected (hence possibly transformed)
shapes has its stored bounding box equal to `calculateBoundingBox` of its
points — min of the xs, min of the ys, and the corresponding extents —
while every unselected shape is exactly as it was before the commit
(hypothesis: live ids are pairwise distinct, as the store maintains). -/
theorem C7_commit_restores_poly_bbox (boxes : List Box) (selected : List ℕ)
    (rr : Bool) (hnodup : (boxes.map Box.id).Nodup) :
    (∀ b ∈ finalizeTransforms boxes selected rr,
      b.id ∈ selected → b.type = BoxType.poly →
        b.x = (calculateBoundingBox b.points).x ∧
        b.y = (calculateBoundingBox b.points).y ∧
        b.w = (calculateBoundingBox b.points).w ∧
        b.h = (calculateBoundingBox b.points).h) ∧
    (∀ b ∈ finalizeTransforms boxes selected rr, b.id ∉ selected → b ∈ boxes) :=
  finalizeTransforms_spec rr selected boxes hnodup

/-- C7 witness: a polygon with points (0,0), (4,0), (0,3) and a stale
bounding box (7,7,1,1), selected, after a resize/rotate commit carries the
recomputed bounding box (0,0,4,3) = `calculateBoundingBox` of its points. -/
theorem C7_commit_restores_poly_bbox_witness :
    (⟨0, .poly, 0, 0, 4, 3, 1, 0, "Not defined",
        [⟨0, 0⟩, ⟨4, 0⟩, ⟨0, 3⟩]⟩ : Box).x
      = (calculateBoundingBox (⟨0, .poly, 0, 0, 4, 3, 1, 0, "Not defined",
          [⟨0, 0⟩, ⟨4, 0⟩, ⟨0, 3⟩]⟩ : Box).points).x ∧
    (⟨0, .poly, 0, 0, 4, 3, 1, 0, "Not defined",
        [⟨0, 0⟩, ⟨4, 0⟩, ⟨0, 3⟩]⟩ : Box).y
      = (calculateBoundingBox (⟨0, .poly, 0, 0, 4, 3, 1, 0, "Not defined",
          [⟨0, 0⟩, ⟨4, 0⟩, ⟨0, 3⟩]⟩ : Box).points).y ∧
    (⟨0, .poly, 0, 0, 4, 3, 1, 0, "Not defined",
        [⟨0, 0⟩, ⟨4, 0⟩, ⟨0, 3⟩]⟩ : Box).w
      = (calculateBoundingBox (⟨0, .poly, 0, 0, 4, 3, 1, 0, "Not defined",
          [⟨0, 0⟩, ⟨4, 0⟩, ⟨0, 3⟩]⟩ : Box).points).w ∧
    (⟨0, .poly, 0, 0, 4, 3, 1, 0, "Not defined",
        [⟨0, 0⟩, ⟨4, 0⟩, ⟨0, 3⟩]⟩ : Box).h
      = (calculateBoundingBox (⟨0, .poly, 0, 0, 4, 3, 1, 0, "Not defined",
          [⟨0, 0⟩, ⟨4, 0⟩, ⟨0, 3⟩]⟩ : Box).points).h :=
  (C7_commit_restores_poly_bbox
      [⟨0, .poly, 7, 7, 1, 1, 1, 0, "Not defined", [⟨0, 0⟩, ⟨4, 0⟩, ⟨0, 3⟩]⟩]
      [0] true (by simp)).1
    ⟨0, .poly, 0, 0, 4, 3, 1, 0, "Not defined", [⟨0, 0⟩, ⟨4, 0⟩, ⟨0, 3⟩]⟩
    (by
      show _ ∈ finalizeTransforms _ [0] true
      norm_num [finalizeTransforms, updateFirstById, commitTransformBox,
        calculateBoundingBox])
    (by simp) rfl

/-- Evaluation of `isPointInBox` on a rectangle: the query point is
inverse-rotated about the bounding-box center and tested strictly against
the half-extents. -/
theorem isPointInBox_rect_eval (box : Box) (htype : box.type = BoxType.rect)
    (px py : ℚ) :
    isPointInBox px py box
      = ((decide (|(px - (box.x + box.w / 2)) * box.angleC
            - (py - (box.y + box.h / 2)) * (-box.angleS)| < box.w / 2)) &&
         (decide (|(px - (box.x + box.w / 2)) * (-box.angleS)
            + (py - (box.y + box.h / 2)) * box.angleC| < box.h / 2))) := by
  rcases box with ⟨i, ty, x, y, w, h, c, s, t, pts⟩
  simp only at htype
  subst htype
  rfl

/-- C8: with any rotation (any cosine/sine pair on the unit circle),
rectangle containment is strict — any query point whose inverse-rotated
local x-coordinate has absolute value exactly `w/2`, or local y-coordinate
exactly `h/2`, is reported outside — and in particular each of the four
corner handle positions produced by `getHandles` is never inside the
body. -/
theorem C8_corner_handles_outside (box : Box) (scale : ℚ)
    (htype : box.type = BoxType.rect)
    (hcs : box.angleC ^ 2 + box.angleS ^ 2 = 1) :
    (∀ hn : HandleName,
      hn = HandleName.nw ∨ hn = HandleName.ne ∨ hn = HandleName.sw ∨
        hn = HandleName.se →
      isPointInBox (getHandles box scale hn).x (getHandles box scale hn).y box
        = false) ∧
    (∀ px py : ℚ,
      (|(px - (box.x + box.w / 2)) * box.angleC
          - (py - (box.y + box.h / 2)) * (-box.angleS)| = box.w / 2 ∨
       |(px - (box.x + box.w / 2)) * (-box.angleS)
          + (py - (box.y + box.h / 2)) * box.angleC| = box.h / 2) →
      isPointInBox px py box = false) := by
  constructor
  · intro hn hd
    rcases hd with rfl | rfl | rfl | rfl
    · rw [isPointInBox_rect_eval box htype]
      have hEx : ((getHandles box scale HandleName.nw).x - (box.x + box.w / 2)) * box.angleC
          - ((getHandles box scale HandleName.nw).y - (box.y + box.h / 2)) * (-box.angleS)
          = -(box.w / 2) := by
        simp only [getHandles, handleCorner]
        linear_combination (-(box.w / 2)) * hcs
      have hfalse : ¬ (|((getHandles box scale HandleName.nw).x - (box.x + box.w / 2)) * box.angleC
          - ((getHandles box scale HandleName.nw).y - (box.y + box.h / 2)) * (-box.angleS)|
            < box.w / 2) := by
        rw [hEx, abs_neg]
        exact not_lt.mpr (le_abs_self _)
      rw [decide_eq_false hfalse]
      exact Bool.false_and _
    · rw [isPointInBox_rect_eval box htype]
      have hEx : ((getHandles box scale HandleName.ne).x - (box.x + box.w / 2)) * box.angleC
          - ((getHandles box scale HandleName.ne).y - (box.y + box.h / 2)) * (-box.angleS)
          = box.w / 2 := by
        simp only [getHandles, handleCorner]
        linear_combination (box.w / 2) * hcs
      have hfalse : ¬ (|((getHandles box scale HandleName.ne).x - (box.x + box.w / 2)) * box.angleC
          - ((getHandles box scale HandleName.ne).y - (box.y + box.h / 2)) * (-box.angleS)|
            < box.w / 2) := by
        rw [hEx]
        exact not_lt.mpr (le_abs_self _)
      rw [decide_eq_false hfalse]
      exact Bool.false_and _
    · rw [isPointInBox_rect_eval box htype]
      have hEx : ((getHandles box scale HandleName.sw).x - (box.x + box.w / 2)) * box.angleC
          - ((getHandles box scale HandleName.sw).y - (box.y + box.h / 2)) * (-box.angleS)
          = -(box.w / 2) := by
        simp only [getHandles, handleCorner]
        linear_combination (-(box.w / 2)) * hcs
      have hfalse : ¬ (|((getHandles box scale HandleName.sw).x - (box.x + box.w / 2)) * box.angleC
          - ((getHandles box scale HandleName.sw).y - (box.y + box.h / 2)) * (-box.angleS)|
            < box.w / 2) := by
        rw [hEx, abs_neg]
        exact not_lt.mpr (le_abs_self _)
      rw [decide_eq_false hfalse]
      exact Bool.false_and _
    · rw [isPointInBox_rect_eval box htype]
      have hEx : ((getHandles box scale HandleName.se).x - (box.x + box.w / 2)) * box.angleC
          - ((getHandles box scale HandleName.se).y - (box.y + box.h / 2)) * (-box.angleS)
          = box.w / 2 := by
        simp only [getHandles, handleCorner]
        linear_combination (box.w / 2) * hcs
      have hfalse : ¬ (|((getHandles box scale HandleName.se).x - (box.x + box.w / 2)) * box.angleC
          - ((getHandles box scale HandleName.se).y - (box.y + box.h / 2)) * (-box.angleS)|
            < box.w / 2) := by
        rw [hEx]
        exact not_lt.mpr (le_abs_self _)
      rw [decide_eq_false hfalse]
      exact Bool.false_and _
  · intro px py hd
    rw [isPointInBox_rect_eval box htype]
    rcases hd with h1 | h2
    · have hfalse : ¬ (|(px - (box.x + box.w / 2)) * box.angleC
          - (py - (box.y + box.h / 2)) * (-box.angleS)| < box.w / 2) := by
        rw [h1]
        exact lt_irrefl _
      rw [decide_eq_false hfalse]
      exact Bool.false_and _
    · have hfalse : ¬ (|(px - (box.x + box.w / 2)) * (-box.angleS)
          + (py - (box.y + box.h / 2)) * box.angleC| < box.h / 2) := by
        rw [h2]
        exact lt_irrefl _
      rw [decide_eq_false hfalse]
      exact Bool.and_false _

/-- C8 witness: a 4×2 rectangle rotated by the angle with cosine 3/5 and
sine 4/5 never reports its own north-west corner handle as inside. -/
theorem C8_corner_handles_outside_witness :
    isPointInBox
        (getHandles ⟨0, .rect, 0, 0, 4, 2, 3/5, 4/5, "Not defined", []⟩ 1 HandleName.nw).x
        (getHandles ⟨0, .rect, 0, 0, 4, 2, 3/5, 4/5, "Not defined", []⟩ 1 HandleName.nw).y
        ⟨0, .rect, 0, 0, 4, 2, 3/5, 4/5, "Not defined", []⟩ = false :=
  (C8_corner_handles_outside ⟨0, .rect, 0, 0, 4, 2, 3/5, 4/5, "Not defined", []⟩ 1
      rfl (by norm_num)).1 HandleName.nw (Or.inl rfl)

end ImageAnotator
